import Mathlib

/-!
Shallow embedding of `src/hstr.c` (hstr 0.2, a shell history completion
utility): the filter/dedup engine `makeSelection` (hstr.c lines 169-204) and
the interactive selection loop `selectionLoop` (lines 270-374), together with
theorems checking the specification's claims about them.

History lines and the typed filter fragment are byte strings; they are
modelled as `List Char` values.  The C `int` key codes delivered by
`wgetch` are modelled as `Nat`.
-/

namespace Hstr

/-- A history line / fragment: a byte string, modelled as a list of characters. -/
abbrev Str := List Char

/-- Modelled from the spec: the seen-set of `include/hashset.h` (`hs_init`,
`hs_contains`, `hs_add`), whose source file is not under `src/`.  The spec
describes it as a "seen-set keyed by exact text equality", so it is modelled
as a list of strings, with `hs_contains` as exact-text membership and
`hs_add` as insertion. -/
def hs_init : List Str := []

/-- Modelled from the spec: `hs_contains(&set, item)` tests exact-text
membership of `item` in the seen-set. -/
def hs_contains (seen : List Str) (x : Str) : Prop := x ∈ seen

instance (seen : List Str) (x : Str) : Decidable (hs_contains seen x) :=
  inferInstanceAs (Decidable (x ∈ seen))

/-- Modelled from the spec: `hs_add(&set, item)` inserts `item` into the
seen-set. -/
def hs_add (seen : List Str) (x : Str) : List Str := x :: seen

/-- `containsSubstr s p` models `strstr(s, p) != NULL`: `p` occurs somewhere
in `s`.  The first occurrence is at offset 0 exactly when `p.isPrefixOf s`. -/
def containsSubstr : Str → Str → Bool
  | [], p => p.isPrefixOf ([] : Str)
  | c :: t, p => p.isPrefixOf (c :: t) || containsSubstr t p

/-- One scan phase of `makeSelection` (the `for` loops at hstr.c lines
176-188 and 191-199): walk `items` in order while the accumulated selection
`sel` is below `limit`; a line not yet in the seen-set that satisfies
`accept` is appended to the selection and added to the seen-set.  Returns
the final selection together with the final seen-set. -/
def phaseScan (accept : Str → Bool) (limit : Nat) :
    List Str → List Str → List Str → List Str × List Str
  | [], sel, seen => (sel, seen)
  | x :: rest, sel, seen =>
    if sel.length < limit then
      if hs_contains seen x then
        phaseScan accept limit rest sel seen
      else if accept x then
        phaseScan accept limit rest (sel ++ [x]) (hs_add seen x)
      else
        phaseScan accept limit rest sel seen
    else (sel, seen)

/-- `makeSelection` (hstr.c lines 169-204).  `frag = none` models a NULL
`prefix` argument.  Phase 1 accepts every not-yet-seen line when the fragment
is NULL, and otherwise lines whose first `strstr` occurrence of the fragment
is at offset 0 (`historyFileItems[i] == strstr(historyFileItems[i], prefix)`,
i.e. the fragment is a prefix of the line).  Phase 2 runs only for a non-NULL
fragment and while under the limit; it rescans from the start and accepts
not-yet-seen lines whose first occurrence of the fragment is at a non-zero
offset (`strstr != NULL && strstr != historyFileItems[i]`). -/
def makeSelection (frag : Option Str) (items : List Str) (limit : Nat) : List Str :=
  match frag with
  | none => (phaseScan (fun _ => true) limit items hs_init hs_init).1
  | some p =>
    let r1 := phaseScan (fun x => p.isPrefixOf x) limit items hs_init hs_init
    if r1.1.length < limit then
      (phaseScan (fun x => containsSubstr x p && !(p.isPrefixOf x)) limit items r1.1 r1.2).1
    else r1.1

/-- The state mutated by one pass of the `while (!done)` loop in
`selectionLoop` (hstr.c lines 283-370): the typed fragment (`prefix[500]`),
the current selection (`selection` / `selectionSize` globals), the cursor
(`selectionCursorPosition`, `-1` = `SELECTION_CURSOR_IN_PROMPT`), the
`result` variable, and the `done` flag.  The display-only
`previousSelectionCursorPosition` is omitted: it only feeds
`highlightSelection`. -/
structure LoopState where
  frag : Str
  selection : List Str
  cursor : Int
  result : Str
  done : Bool
deriving DecidableEq

/-- The state on entry to the event loop (hstr.c lines 278-289): the initial
`printSelection(stdscr, ..., NULL, ...)` call fills the selection with the
unfiltered list, but its return value is discarded; `result` is initialised
to the empty string at line 289, and the cursor starts in the prompt. -/
def initState (items : List Str) (maxItems : Nat) : LoopState :=
  { frag := []
    selection := makeSelection none items maxItems
    cursor := -1
    result := []
    done := false }

/-- Helper for `keyBytes`: take leading nonzero byte values (a C string read
stops at the first zero byte). -/
def takeNonzeroBytes : List Nat → List Nat
  | [] => []
  | b :: rest => if b = 0 then [] else b :: takeNonzeroBytes rest

/-- The bytes that `strcat(prefix, (char*)(&c))` appends for key code `c`
(hstr.c line 356): the little-endian bytes of the 32-bit `int`, up to the
first zero byte. -/
def keyBytes (c : Nat) : Str :=
  (takeNonzeroBytes [c % 256, c / 256 % 256, c / 65536 % 256, c / 16777216 % 256]).map
    Char.ofNat

/-- One iteration of the `switch (c)` in `selectionLoop` (hstr.c lines
297-369), modelling the effect of key code `c` on the loop state.  Key
constants: `KEY_TERMINAL_RESIZE = 410`, `KEY_CTRL_A = 1`, `KEY_CTRL_E = 5`,
`KEY_BACKSPACE = 263` (ncurses), `KEY_UP = 259`, `KEY_DOWN = 258`.  Once
`done` is set the loop exits and no further key is processed, so `step` is
the identity on done states.

The backspace branch first calls `makeSelection` directly (lines 317-321)
and then `printSelection` (line 322), which calls `makeSelection` again with
the raw — never NULL, possibly empty — `prefix` buffer (line 208); only that
second call is observable, so only it is modelled.  The character branch
likewise ends in `printSelection` (line 364).  `printSelection` returns
`selection[0]` when the selection is non-empty and `""` otherwise
(lines 207-211), which is assigned to `result`.

In the Enter branch with the cursor on a row, the C code reads
`selection[selectionCursorPosition]` without any bounds check; when the
cursor is at or past `selectionSize` this reads past the current selection
(undefined behaviour), modelled here as the `List.getD` default `[]`.  It
then frees the selection via `allocSelection(0)`. -/
def step (items : List Str) (m : Nat) (s : LoopState) (c : Nat) : LoopState :=
  if s.done then s
  else if c = 410 ∨ c = 1 ∨ c = 5 ∨ c = 91 then
    -- KEY_TERMINAL_RESIZE, Ctrl-A, Ctrl-E, and the raw '[' byte: `break` with no effect
    s
  else if c = 263 ∨ c = 127 then
    -- KEY_BACKSPACE / DEL: drop the last fragment byte if any, then recompute
    let frag' := if s.frag ≠ [] then s.frag.dropLast else s.frag
    let sel' := makeSelection (some frag') items m
    { s with frag := frag', selection := sel', result := sel'.headD [] }
  else if c = 259 ∨ c = 65 then
    -- KEY_UP / 'A': move the cursor up, stopping at the prompt sentinel -1
    { s with cursor := if -1 < s.cursor then s.cursor - 1 else -1 }
  else if c = 258 ∨ c = 66 then
    -- KEY_DOWN / 'B': advance the cursor, else wrap to row 0
    { s with cursor := if s.cursor + 1 < (s.selection.length : Int) then s.cursor + 1 else 0 }
  else if c = 10 then
    -- Enter: pick the row under the cursor (unchecked read), or keep `result`
    if s.cursor ≠ -1 then
      { s with result := s.selection.getD s.cursor.toNat [], selection := [], done := true }
    else
      { s with done := true }
  else if c = 27 then
    -- Escape reaches the default branch but `if (c != 27)` skips everything
    s
  else
    -- default: append the raw bytes of `c` to the fragment and recompute
    let frag' := s.frag ++ keyBytes c
    let sel' := makeSelection (some frag') items m
    { s with frag := frag', selection := sel', result := sel'.headD [] }

/-- Run the selection loop over a list of key codes. -/
def run (items : List Str) (m : Nat) (s : LoopState) (keys : List Nat) : LoopState :=
  keys.foldl (step items m) s

/-- Key codes that reach the fragment-appending default branch of the
`switch` (every code not handled by an earlier `case` and different
from 27). -/
def charKey (c : Nat) : Prop :=
  ¬(c = 410 ∨ c = 1 ∨ c = 5 ∨ c = 91) ∧ ¬(c = 263 ∨ c = 127) ∧
    ¬(c = 259 ∨ c = 65) ∧ ¬(c = 258 ∨ c = 66) ∧ ¬(c = 10) ∧ ¬(c = 27)

instance (c : Nat) : Decidable (charKey c) := by
  unfold charKey
  infer_instance

/-! ### Helper lemmas about the filter engine -/

/-- A scan phase only appends: the result is the incoming selection followed
by a block of newly accepted lines, which form a subsequence of the scanned
items and all satisfy the acceptance predicate. -/
theorem phaseScan_spec (accept : Str → Bool) (limit : Nat) :
    ∀ (items sel seen : List Str),
      ∃ neu, (phaseScan accept limit items sel seen).1 = sel ++ neu ∧
        neu.Sublist items ∧ ∀ x ∈ neu, accept x = true := by
  intro items
  induction items with
  | nil =>
    intro sel seen
    exact ⟨[], by simp [phaseScan], List.nil_sublist _, by simp⟩
  | cons x rest ih =>
    intro sel seen
    by_cases hl : sel.length < limit
    · by_cases hmem : hs_contains seen x
      · obtain ⟨neu, h1, h2, h3⟩ := ih sel seen
        exact ⟨neu, by simp [phaseScan, hl, hmem, h1], List.Sublist.cons x h2, h3⟩
      · by_cases hacc : accept x = true
        · obtain ⟨neu, h1, h2, h3⟩ := ih (sel ++ [x]) (hs_add seen x)
          refine ⟨x :: neu, by simp [phaseScan, hl, hmem, hacc, h1], List.Sublist.cons₂ x h2, ?_⟩
          intro y hy
          rcases List.mem_cons.mp hy with h | h
          · exact h ▸ hacc
          · exact h3 y h
        · obtain ⟨neu, h1, h2, h3⟩ := ih sel seen
          exact ⟨neu, by simp [phaseScan, hl, hmem, hacc, h1], List.Sublist.cons x h2, h3⟩
    · exact ⟨[], by simp [phaseScan, hl], List.nil_sublist _, by simp⟩

/-- A scan phase preserves the dedup invariant: if the incoming selection is
duplicate-free and contained in the seen-set, so is the outgoing one. -/
theorem phaseScan_nodup (accept : Str → Bool) (limit : Nat) :
    ∀ (items sel seen : List Str), sel.Nodup → (∀ x ∈ sel, x ∈ seen) →
      (phaseScan accept limit items sel seen).1.Nodup ∧
        ∀ x ∈ (phaseScan accept limit items sel seen).1,
          x ∈ (phaseScan accept limit items sel seen).2 := by
  intro items
  induction items with
  | nil =>
    intro sel seen hnd hsub
    simpa [phaseScan] using ⟨hnd, hsub⟩
  | cons x rest ih =>
    intro sel seen hnd hsub
    by_cases hl : sel.length < limit
    · by_cases hmem : hs_contains seen x
      · simpa [phaseScan, hl, hmem] using ih sel seen hnd hsub
      · by_cases hacc : accept x = true
        · have hnd' : (sel ++ [x]).Nodup := by
            refine List.Nodup.append hnd (List.nodup_singleton x) ?_
            intro a ha hb
            rw [List.mem_singleton] at hb
            subst hb
            exact hmem (hsub a ha)
          have hsub' : ∀ y ∈ sel ++ [x], y ∈ hs_add seen x := by
            intro y hy
            rcases List.mem_append.mp hy with h | h
            · exact List.mem_cons_of_mem x (hsub y h)
            · rw [List.mem_singleton] at h
              subst h
              exact List.mem_cons_self y seen
          simpa [phaseScan, hl, hmem, hacc] using ih (sel ++ [x]) (hs_add seen x) hnd' hsub'
        · simpa [phaseScan, hl, hmem, hacc] using ih sel seen hnd hsub
    · simpa [phaseScan, hl] using ⟨hnd, hsub⟩

/-- A scan phase never grows the selection past the limit. -/
theorem phaseScan_length (accept : Str → Bool) (limit : Nat) :
    ∀ (items sel seen : List Str), sel.length ≤ limit →
      (phaseScan accept limit items sel seen).1.length ≤ limit := by
  intro items
  induction items with
  | nil =>
    intro sel seen h
    simpa [phaseScan] using h
  | cons x rest ih =>
    intro sel seen h
    by_cases hl : sel.length < limit
    · by_cases hmem : hs_contains seen x
      · simpa [phaseScan, hl, hmem] using ih sel seen h
      · by_cases hacc : accept x = true
        · have h' : (sel ++ [x]).length ≤ limit := by
            simp only [List.length_append, List.length_singleton]
            omega
          simpa [phaseScan, hl, hmem, hacc] using ih (sel ++ [x]) (hs_add seen x) h'
        · simpa [phaseScan, hl, hmem, hacc] using ih sel seen h
    · simpa [phaseScan, hl] using h

/-- A scan phase with an always-false acceptance predicate adds nothing. -/
theorem phaseScan_false (accept : Str → Bool) (limit : Nat)
    (hacc : ∀ x, accept x = false) :
    ∀ (items sel seen : List Str), (phaseScan accept limit items sel seen).1 = sel := by
  intro items
  induction items with
  | nil =>
    intro sel seen
    simp [phaseScan]
  | cons x rest ih =>
    intro sel seen
    by_cases hl : sel.length < limit
    · by_cases hmem : hs_contains seen x
      · simpa [phaseScan, hl, hmem] using ih sel seen
      · simpa [phaseScan, hl, hmem, hacc x] using ih sel seen
    · simp [phaseScan, hl]

/-- The selection produced by `makeSelection` never exceeds the limit. -/
theorem makeSelection_length (frag : Option Str) (items : List Str) (n : Nat) :
    (makeSelection frag items n).length ≤ n := by
  cases frag with
  | none =>
    simpa [makeSelection] using
      phaseScan_length (fun _ => true) n items hs_init hs_init (by simp [hs_init])
  | some p =>
    by_cases hl : (phaseScan (fun x => p.isPrefixOf x) n items hs_init hs_init).1.length < n
    · have h := phaseScan_length (fun x => containsSubstr x p && !(p.isPrefixOf x)) n items
        (phaseScan (fun x => p.isPrefixOf x) n items hs_init hs_init).1
        (phaseScan (fun x => p.isPrefixOf x) n items hs_init hs_init).2 (le_of_lt hl)
      simpa [makeSelection, hl] using h
    · have h := phaseScan_length (fun x => p.isPrefixOf x) n items hs_init hs_init
        (by simp [hs_init])
      simpa [makeSelection, hl] using h

/-- The selection produced by `makeSelection` is duplicate-free. -/
theorem makeSelection_nodup (frag : Option Str) (items : List Str) (n : Nat) :
    (makeSelection frag items n).Nodup := by
  cases frag with
  | none =>
    simpa [makeSelection] using
      (phaseScan_nodup (fun _ => true) n items hs_init hs_init List.nodup_nil (by simp [hs_init])).1
  | some p =>
    have h1 := phaseScan_nodup (fun x => p.isPrefixOf x) n items hs_init hs_init
      List.nodup_nil (by simp [hs_init])
    by_cases hl : (phaseScan (fun x => p.isPrefixOf x) n items hs_init hs_init).1.length < n
    · have h2 := phaseScan_nodup (fun x => containsSubstr x p && !(p.isPrefixOf x)) n items
        (phaseScan (fun x => p.isPrefixOf x) n items hs_init hs_init).1
        (phaseScan (fun x => p.isPrefixOf x) n items hs_init hs_init).2 h1.1 h1.2
      simpa [makeSelection, hl] using h2.1
    · simpa [makeSelection, hl] using h1.1

/-- With a non-NULL fragment, the selection splits into the phase-1 prefix
matches followed by the phase-2 substring-only matches, each block a
subsequence of the scanned history. -/
theorem makeSelection_split (p : Str) (items : List Str) (n : Nat) :
    ∃ P S, makeSelection (some p) items n = P ++ S ∧ P.Sublist items ∧ S.Sublist items ∧
      (∀ x ∈ P, p.isPrefixOf x = true) ∧
      (∀ x ∈ S, containsSubstr x p = true ∧ p.isPrefixOf x = false) := by
  obtain ⟨P, hP1, hP2, hP3⟩ := phaseScan_spec (fun x => p.isPrefixOf x) n items hs_init hs_init
  by_cases hl : (phaseScan (fun x => p.isPrefixOf x) n items hs_init hs_init).1.length < n
  · obtain ⟨S, hS1, hS2, hS3⟩ :=
      phaseScan_spec (fun x => containsSubstr x p && !(p.isPrefixOf x)) n items
        (phaseScan (fun x => p.isPrefixOf x) n items hs_init hs_init).1
        (phaseScan (fun x => p.isPrefixOf x) n items hs_init hs_init).2
    refine ⟨P, S, ?_, hP2, hS2, hP3, ?_⟩
    · simp only [makeSelection, hl, if_true, if_pos]
      rw [hS1, hP1]
      simp [hs_init]
    · intro x hx
      have h := hS3 x hx
      simp only [Bool.and_eq_true, Bool.not_eq_true'] at h
      exact h
  · refine ⟨P, [], ?_, hP2, List.nil_sublist _, hP3, by simp⟩
    simp only [makeSelection, hl, if_false, if_neg, List.append_nil]
    rw [hP1]
    simp [hs_init]

/-- Filtering with the empty (but non-NULL) fragment coincides with the
NULL-fragment scan: with an empty needle `strstr` always succeeds at
offset 0, so phase 1 accepts everything and phase 2 accepts nothing. -/
theorem makeSelection_empty_frag (items : List Str) (n : Nat) :
    makeSelection (some ([] : Str)) items n = makeSelection none items n := by
  have hacc : (fun x : Str => ([] : Str).isPrefixOf x) = fun _ : Str => true := by
    funext x
    cases x <;> rfl
  simp only [makeSelection, hacc]
  by_cases hl : (phaseScan (fun _ : Str => true) n items hs_init hs_init).1.length < n
  · rw [if_pos hl]
    exact phaseScan_false _ n (fun x => by simp) items _ _
  · rw [if_neg hl]

/-- A prefix occurrence is in particular a substring occurrence. -/
theorem containsSubstr_of_isPrefixOf (s p : Str) (h : p.isPrefixOf s = true) :
    containsSubstr s p = true := by
  cases s with
  | nil => exact h
  | cons c t => simp [containsSubstr, h]

/-! ### Helper lemmas about the selection loop -/

theorem run_nil (items : List Str) (m : Nat) (s : LoopState) :
    run items m s [] = s := rfl

theorem run_cons (items : List Str) (m : Nat) (s : LoopState) (c : Nat) (keys : List Nat) :
    run items m s (c :: keys) = run items m (step items m s c) keys := rfl

/-- Effect of a default-branch (fragment-appending) key on a live state. -/
theorem step_char (items : List Str) (m : Nat) (s : LoopState) (c : Nat)
    (h : s.done = false) (hc : charKey c) :
    step items m s c =
      { s with frag := s.frag ++ keyBytes c,
               selection := makeSelection (some (s.frag ++ keyBytes c)) items m,
               result := (makeSelection (some (s.frag ++ keyBytes c)) items m).headD [] } := by
  obtain ⟨h1, h2, h3, h4, h5, h6⟩ := hc
  simp only [step]
  rw [if_neg (by simp [h]), if_neg h1, if_neg h2, if_neg h3, if_neg h4, if_neg h5, if_neg h6]

/-- Effect of KEY_BACKSPACE on a live state: since dropping the last element
of an empty list is the identity, the `strlen(prefix) > 0` guard and the
unguarded `dropLast` agree. -/
theorem step_backspace (items : List Str) (m : Nat) (s : LoopState)
    (h : s.done = false) :
    step items m s 263 =
      { s with frag := s.frag.dropLast,
               selection := makeSelection (some s.frag.dropLast) items m,
               result := (makeSelection (some s.frag.dropLast) items m).headD [] } := by
  simp only [step]
  rw [if_neg (by simp [h]), if_neg (by decide), if_pos (by decide)]
  by_cases hf : s.frag = []
  · simp [hf]
  · rw [if_pos hf]

/-- Effect of KEY_UP (or the raw byte 'A' = 65) on a live state. -/
theorem step_up (items : List Str) (m : Nat) (s : LoopState) (c : Nat)
    (h : s.done = false) (hc : c = 259 ∨ c = 65) :
    step items m s c = { s with cursor := if -1 < s.cursor then s.cursor - 1 else -1 } := by
  rcases hc with rfl | rfl <;>
    (simp only [step]
     rw [if_neg (by simp [h]), if_neg (by decide), if_neg (by decide), if_pos (by decide)])

/-- Effect of KEY_DOWN (or the raw byte 'B' = 66) on a live state. -/
theorem step_down (items : List Str) (m : Nat) (s : LoopState) (c : Nat)
    (h : s.done = false) (hc : c = 258 ∨ c = 66) :
    step items m s c =
      { s with cursor := if s.cursor + 1 < (s.selection.length : Int) then s.cursor + 1 else 0 } := by
  rcases hc with rfl | rfl <;>
    (simp only [step]
     rw [if_neg (by simp [h]), if_neg (by decide), if_neg (by decide), if_neg (by decide),
       if_pos (by decide)])

/-- Effect of Enter on a live state whose cursor is in the prompt: the loop
ends and `result` keeps whatever value the last recomputation stored. -/
theorem step_accept_prompt (items : List Str) (m : Nat) (s : LoopState)
    (h : s.done = false) (hcur : s.cursor = -1) :
    step items m s 10 = { s with done := true } := by
  simp only [step]
  rw [if_neg (by simp [h]), if_neg (by decide), if_neg (by decide), if_neg (by decide),
    if_neg (by decide), if_pos (by decide), if_neg (by simp [hcur])]

/-- Invariant of the editing phase: the loop is live and the current
selection is the one computed from the current fragment (with the NULL
fragment only in the start state, where the fragment is still empty). -/
def EditInv (items : List Str) (m : Nat) (s : LoopState) : Prop :=
  s.done = false ∧
    (s.selection = makeSelection (some s.frag) items m ∨
      (s.frag = [] ∧ s.selection = makeSelection none items m))

theorem editInv_initState (items : List Str) (m : Nat) :
    EditInv items m (initState items m) :=
  ⟨rfl, Or.inr ⟨rfl, rfl⟩⟩

theorem editInv_step_char (items : List Str) (m : Nat) (s : LoopState) (c : Nat)
    (hc : charKey c) (h : EditInv items m s) :
    EditInv items m (step items m s c) := by
  rw [step_char items m s c h.1 hc]
  exact ⟨h.1, Or.inl rfl⟩

/-- Running any sequence of default-branch keys keeps the editing
invariant. -/
theorem run_chars (items : List Str) (m : Nat) (cs : List Nat) :
    ∀ s : LoopState, (∀ c ∈ cs, charKey c) → EditInv items m s →
      EditInv items m (run items m s cs) := by
  induction cs with
  | nil =>
    intro s _ h
    simpa [run_nil] using h
  | cons c cs ih =>
    intro s hcs h
    rw [run_cons]
    exact ih _ (fun d hd => hcs d (List.mem_cons_of_mem c hd))
      (editInv_step_char items m s c (hcs c (List.mem_cons_self c cs)) h)

/-- Running as many backspaces as the fragment has bytes leaves the
selection computed from the empty fragment (or, when there was nothing to
erase, leaves the state untouched). -/
theorem run_backspaces (items : List Str) (m : Nat) :
    ∀ (k : Nat) (s : LoopState), s.done = false → s.frag.length = k →
      (run items m s (List.replicate k 263)).selection =
        (if k = 0 then s.selection else makeSelection (some ([] : Str)) items m) := by
  intro k
  induction k with
  | zero =>
    intro s h hf
    simp [run_nil]
  | succ k ih =>
    intro s h hf
    have hlen : (s.frag.dropLast).length = k := by
      rw [List.length_dropLast, hf]
      omega
    rw [List.replicate_succ, run_cons, step_backspace items m s h,
      ih { s with frag := s.frag.dropLast,
                  selection := makeSelection (some s.frag.dropLast) items m,
                  result := (makeSelection (some s.frag.dropLast) items m).headD [] } h hlen]
    by_cases hk : k = 0
    · have hnil : s.frag.dropLast = [] := by
        rw [← List.length_eq_zero, hlen, hk]
      simp [hk, hnil]
    · simp [hk]

/-! ### Claim theorems -/

/-- Claim C1: the filter scans history (most-recent-first) in two ordered
phases — first accepting lines that start with the fragment, then, from the
start again, lines containing the fragment only at a non-zero offset — so
the output is all accepted prefix matches in history order followed by all
accepted substring-only matches in history order; in particular for history
`["abcd", "xabc", "abce"]` and fragment `"ab"` it returns
`["abcd", "abce", "xabc"]`.  (Proved for every fragment, not only non-empty
ones.) -/
theorem C1_phase_ordering (hist : List Str) (p : Str) (n : Nat) :
    (∃ P S, makeSelection (some p) hist n = P ++ S ∧ P.Sublist hist ∧ S.Sublist hist ∧
      (∀ x ∈ P, p.isPrefixOf x = true) ∧
      (∀ x ∈ S, containsSubstr x p = true ∧ p.isPrefixOf x = false)) ∧
    makeSelection (some "ab".toList) ["abcd".toList, "xabc".toList, "abce".toList] 10 =
      ["abcd".toList, "abce".toList, "xabc".toList] :=
  ⟨makeSelection_split p hist n, by decide⟩

/-- Claim C2: for every history, fragment (including none) and limit, the
filtered list contains no two textually equal entries — deduplication holds
across both phases of the scan. -/
theorem C2_dedup (frag : Option Str) (hist : List Str) (n : Nat) :
    (makeSelection frag hist n).Nodup :=
  makeSelection_nodup frag hist n

/-- Claim C3: for every history, fragment and limit the filtered list has at
most `limit` entries, and with limit 0 it is empty. -/
theorem C3_bound (frag : Option Str) (hist : List Str) (n : Nat) :
    (makeSelection frag hist n).length ≤ n ∧ makeSelection frag hist 0 = [] :=
  ⟨makeSelection_length frag hist n,
   List.length_eq_zero.mp (Nat.le_zero.mp (makeSelection_length frag hist 0))⟩

/-- Claim C4 (refuted — the code has no cursor clamping): browsing at row 4
of a five-entry unfiltered list and then typing `"aa"` shrinks the selection
to one entry, yet the cursor stays at 4, at which point Enter reads
`selection[4]` past the end of the one-entry selection (returning the
out-of-range default in this model, garbage memory in the C program). -/
theorem C4_no_cursor_clamp :
    (run ["aa".toList, "ab".toList, "ac".toList, "ad".toList, "ae".toList] 5
        (initState ["aa".toList, "ab".toList, "ac".toList, "ad".toList, "ae".toList] 5)
        [258, 258, 258, 258, 258, 97, 97]).cursor = 4 ∧
    (run ["aa".toList, "ab".toList, "ac".toList, "ad".toList, "ae".toList] 5
        (initState ["aa".toList, "ab".toList, "ac".toList, "ad".toList, "ae".toList] 5)
        [258, 258, 258, 258, 258, 97, 97]).selection.length = 1 ∧
    (run ["aa".toList, "ab".toList, "ac".toList, "ad".toList, "ae".toList] 5
        (initState ["aa".toList, "ab".toList, "ac".toList, "ad".toList, "ae".toList] 5)
        [258, 258, 258, 258, 258, 97, 97, 10]).done = true ∧
    (run ["aa".toList, "ab".toList, "ac".toList, "ad".toList, "ae".toList] 5
        (initState ["aa".toList, "ab".toList, "ac".toList, "ad".toList, "ae".toList] 5)
        [258, 258, 258, 258, 258, 97, 97, 10]).result = [] := by
  decide

/-- Claim C5 counterexample: in the initial state over the one-line history
`["a"]` the selection is non-empty, yet Accept terminates with the empty
string — the initial `printSelection` return value is discarded
(hstr.c line 278) and `result` starts as `""` (line 289). -/
theorem C5_cex :
    (run ["a".toList] 5 (initState ["a".toList] 5) [10]).done = true ∧
    (initState ["a".toList] 5).selection ≠ [] ∧
    (run ["a".toList] 5 (initState ["a".toList] 5) [10]).result ≠
      (initState ["a".toList] 5).selection.headD [] := by
  decide

/-- Claim C5 as amended: Accept at the prompt terminates the session with
`result` as last stored — the head of the selection recomputed by the most
recent character or backspace event — while in the initial state `result`
is the empty string even when the history is non-empty. -/
theorem C5_amended (items : List Str) (m : Nat) (s : LoopState) (c : Nat)
    (h : s.done = false) :
    (s.cursor = -1 → step items m s 10 = { s with done := true }) ∧
    (charKey c → (step items m s c).result =
      (makeSelection (some (s.frag ++ keyBytes c)) items m).headD []) ∧
    (step items m s 263).result = (makeSelection (some s.frag.dropLast) items m).headD [] ∧
    (initState items m).result = [] := by
  refine ⟨fun hcur => step_accept_prompt items m s h hcur, fun hc => ?_, ?_, rfl⟩
  · rw [step_char items m s c h hc]
  · rw [step_backspace items m s h]

theorem C5_amended_w :
    step ["a".toList] 5 (initState ["a".toList] 5) 10 =
      { initState ["a".toList] 5 with done := true } ∧
    (step ["a".toList] 5 (initState ["a".toList] 5) 97).result =
      (makeSelection (some ((initState ["a".toList] 5).frag ++ keyBytes 97))
        ["a".toList] 5).headD [] ∧
    (initState ["a".toList] 5).result = [] :=
  ⟨(C5_amended ["a".toList] 5 (initState ["a".toList] 5) 97 rfl).1 rfl,
   (C5_amended ["a".toList] 5 (initState ["a".toList] 5) 97 rfl).2.1 (by decide),
   (C5_amended ["a".toList] 5 (initState ["a".toList] 5) 97 rfl).2.2.2⟩

/-- Claim C6 counterexample: Escape (27) does not terminate the session —
in the initial (reachable) state it leaves the whole state unchanged and
`done` stays false, because the default branch guards everything behind
`if (c != 27)`. -/
theorem C6_cex :
    step ["a".toList] 5 (initState ["a".toList] 5) 27 = initState ["a".toList] 5 ∧
    (step ["a".toList] 5 (initState ["a".toList] 5) 27).done = false := by
  decide

/-- Claim C6 as amended: Escape is ignored — it leaves the session state
entirely unchanged and never terminates the session; the code has no abort
event at all. -/
theorem C6_amended (items : List Str) (m : Nat) (s : LoopState) :
    step items m s 27 = s := by
  rcases s with ⟨f, sel, cur, res, d⟩
  cases d <;> rfl

/-- Claim C7 counterexample: an unrecognized raw key code does corrupt the
Fragment — key 260 (ncurses KEY_LEFT, outside the recognized event set) is
appended to the fragment as the two little-endian bytes 4 and 1 of the
integer 260. -/
theorem C7_cex :
    (step ["a".toList] 5 (initState ["a".toList] 5) 260).frag ≠
      (initState ["a".toList] 5).frag ∧
    (step ["a".toList] 5 (initState ["a".toList] 5) 260).frag =
      [Char.ofNat 4, Char.ofNat 1] := by
  decide

/-- Claim C7 as amended: only the key codes 410 (KEY_TERMINAL_RESIZE),
1 (Ctrl-A), 5 (Ctrl-E), 91 (raw byte of a '[') and 27 (Escape) are ignored
with no state change whatsoever; every other unhandled code falls into the
character branch and is appended byte-wise to the Fragment, as key 260
demonstrates. -/
theorem C7_amended (items : List Str) (m : Nat) (s : LoopState) :
    step items m s 410 = s ∧ step items m s 1 = s ∧ step items m s 5 = s ∧
    step items m s 91 = s ∧ step items m s 27 = s ∧
    (step ["a".toList] 5 (initState ["a".toList] 5) 260).frag =
      [Char.ofNat 4, Char.ofNat 1] := by
  rcases s with ⟨f, sel, cur, res, d⟩
  cases d <;> exact ⟨rfl, rfl, rfl, rfl, rfl, by decide⟩

/-- Claim C8 counterexample: with an empty history the MatchList is empty,
yet a Down event in the initial (Editing) state moves the cursor to
Browsing(0) instead of being a no-op. -/
theorem C8_cex :
    (initState ([] : List Str) 5).selection = [] ∧
    (initState ([] : List Str) 5).cursor = -1 ∧
    (step ([] : List Str) 5 (initState ([] : List Str) 5) 258).cursor = 0 := by
  decide

/-- Claim C8 as amended: Down moves the cursor to `k + 1` when `k + 1` is
below the selection length and to row 0 otherwise — wrapping from the last
match to the first, taking Editing to Browsing(0) for a non-empty list, and
also moving to Browsing(0) (not a no-op) when the list is empty; Up takes
Browsing(k) with `k > 0` to Browsing(k-1), Browsing(0) to Editing, and is a
no-op in Editing. -/
theorem C8_amended (items : List Str) (m : Nat) (s : LoopState) (h : s.done = false) :
    (step items m s 258 =
      { s with cursor := if s.cursor + 1 < (s.selection.length : Int) then s.cursor + 1 else 0 }) ∧
    (step items m s 66 =
      { s with cursor := if s.cursor + 1 < (s.selection.length : Int) then s.cursor + 1 else 0 }) ∧
    (step items m s 259 = { s with cursor := if -1 < s.cursor then s.cursor - 1 else -1 }) ∧
    (step items m s 65 = { s with cursor := if -1 < s.cursor then s.cursor - 1 else -1 }) ∧
    (∀ k : Nat, s.cursor = (k : Int) → k < s.selection.length →
      (step items m s 258).cursor = ((k : Int) + 1) % (s.selection.length : Int)) ∧
    (s.cursor = -1 → s.selection ≠ [] → (step items m s 258).cursor = 0) ∧
    (-1 ≤ s.cursor → s.selection = [] → (step items m s 258).cursor = 0) ∧
    (∀ k : Nat, s.cursor = (k : Int) → 0 < k → (step items m s 259).cursor = (k : Int) - 1) ∧
    (s.cursor = 0 → (step items m s 259).cursor = -1) ∧
    (s.cursor = -1 → (step items m s 259).cursor = -1) := by
  have hd := step_down items m s 258 h (Or.inl rfl)
  have hd66 := step_down items m s 66 h (Or.inr rfl)
  have hu := step_up items m s 259 h (Or.inl rfl)
  have hu65 := step_up items m s 65 h (Or.inr rfl)
  have hdc : (step items m s 258).cursor =
      if s.cursor + 1 < (s.selection.length : Int) then s.cursor + 1 else 0 := by
    rw [hd]
  have huc : (step items m s 259).cursor =
      if -1 < s.cursor then s.cursor - 1 else -1 := by
    rw [hu]
  refine ⟨hd, hd66, hu, hu65, ?_, ?_, ?_, ?_, ?_, ?_⟩
  · intro k hk hklen
    rw [hdc, hk]
    by_cases hlt : (k : Int) + 1 < (s.selection.length : Int)
    · rw [if_pos hlt, Int.emod_eq_of_lt (by omega) hlt]
    · rw [if_neg hlt]
      have hcast : (k : Int) < (s.selection.length : Int) := by exact_mod_cast hklen
      have hlen : (k : Int) + 1 = (s.selection.length : Int) := by omega
      rw [hlen, Int.emod_self]
  · intro hk hne
    rw [hdc, hk]
    split <;> omega
  · intro h1 h2
    rw [hdc, h2]
    simp only [List.length_nil, Nat.cast_zero]
    rw [if_neg (by omega)]
  · intro k hk hkpos
    rw [huc, hk]
    split <;> omega
  · intro hk
    rw [huc, hk]
    norm_num
  · intro hk
    rw [huc, hk]
    norm_num

theorem C8_amended_w :
    step ["x".toList] 5 (initState ["x".toList] 5) 258 =
      { initState ["x".toList] 5 with
          cursor := if (initState ["x".toList] 5).cursor + 1 <
              (((initState ["x".toList] 5).selection.length : Int)) then
            (initState ["x".toList] 5).cursor + 1 else 0 } :=
  (C8_amended ["x".toList] 5 (initState ["x".toList] 5) rfl).1

/-- Claim C9: typing any sequence of characters and then backspacing until
the fragment is empty reproduces exactly the MatchList of the initial state
(filtering with the empty fragment equals the initial NULL-fragment scan). -/
theorem C9_idempotence (items : List Str) (m : Nat) (cs : List Nat)
    (hcs : ∀ c ∈ cs, charKey c) :
    (run items m (run items m (initState items m) cs)
        (List.replicate (run items m (initState items m) cs).frag.length 263)).selection =
      (initState items m).selection := by
  have hinv := run_chars items m cs (initState items m) hcs (editInv_initState items m)
  have hb := run_backspaces items m (run items m (initState items m) cs).frag.length
    (run items m (initState items m) cs) hinv.1 rfl
  rw [hb]
  by_cases hk : (run items m (initState items m) cs).frag.length = 0
  · rw [if_pos hk]
    rcases hinv.2 with hsel | hsel
    · have hfrag : (run items m (initState items m) cs).frag = [] :=
        List.length_eq_zero.mp hk
      rw [hsel, hfrag, makeSelection_empty_frag]
      rfl
    · rw [hsel.2]
      rfl
  · rw [if_neg hk, makeSelection_empty_frag]
    rfl

theorem C9_idempotence_w :
    (run ["ab".toList, "cd".toList] 5
        (run ["ab".toList, "cd".toList] 5 (initState ["ab".toList, "cd".toList] 5) [97, 98])
        (List.replicate
          (run ["ab".toList, "cd".toList] 5
            (initState ["ab".toList, "cd".toList] 5) [97, 98]).frag.length
          263)).selection =
      (initState ["ab".toList, "cd".toList] 5).selection :=
  C9_idempotence ["ab".toList, "cd".toList] 5 [97, 98] (by decide)

/-- Claim C10: with a non-NULL fragment, every entry of the filtered list
contains the fragment as a substring and is one of the input history lines
verbatim. -/
theorem C10_matches (p : Str) (hist : List Str) (n : Nat) :
    ∀ x ∈ makeSelection (some p) hist n, containsSubstr x p = true ∧ x ∈ hist := by
  intro x hx
  obtain ⟨P, S, heq, hPs, hSs, hP, hS⟩ := makeSelection_split p hist n
  rw [heq] at hx
  rcases List.mem_append.mp hx with hm | hm
  · exact ⟨containsSubstr_of_isPrefixOf x p (hP x hm), hPs.subset hm⟩
  · exact ⟨(hS x hm).1, hSs.subset hm⟩

theorem C10_matches_w :
    containsSubstr "abcd".toList "ab".toList = true ∧
      "abcd".toList ∈ ["abcd".toList, "xabc".toList] :=
  C10_matches "ab".toList ["abcd".toList, "xabc".toList] 10 "abcd".toList (by decide)

end Hstr
